import Mathlib

set_option maxRecDepth 4000

namespace Mozc

/-! Shallow embedding of the mozc immutable-converter subsystem.

The repository ships the converter's test file
(`src/converter/immutable_converter_test.cc`) and the encoding utility
(`src/base/encoding_util.cc`).  The converter implementation itself
(`immutable_converter.cc`) is not among the source files, so the converter's
data model and operations below are modelled from the specification's words
(each such definition says so in its doc comment); `encoding_util.cc` is
embedded from the source directly. -/

/-! ### Characters and byte lengths

All positions of the converter are byte offsets aligned to UTF-8 character
boundaries, so a reading is modelled as a list of characters, each carrying
its UTF-8 encoded width in bytes. -/

/-- A character of a reading or surface string, identified by its Unicode
code point. -/
structure KChar where
  code : Nat
deriving DecidableEq, Repr

/-- UTF-8 encoded width in bytes of a character. -/
def KChar.width (c : KChar) : Nat :=
  if c.code < 0x80 then 1
  else if c.code < 0x800 then 2
  else if c.code < 0x10000 then 3
  else 4

/-- A string, as a list of characters. -/
abbrev KString := List KChar

/-- The length in bytes of a string's UTF-8 encoding. -/
def byteLen (s : KString) : Nat := (s.map KChar.width).sum

/-- Boolean prefix test on strings. -/
def isPre : KString → KString → Bool
  | [], _ => true
  | _ :: _, [] => false
  | a :: as, b :: bs => a == b && isPre as bs

/-! ### Encoding utilities (embedded from `src/base/encoding_util.cc`)

The iconv library is external to the repository: it is modelled as an
abstract environment.  `iconvOpen` stands for `iconv_open` (`none` models
the return value `(iconv_t)-1`); a descriptor's `convertBytes` stands for
the `iconv` loop of `IconvHelper` (`none` models the loop returning
`(size_t)-1` part-way through). -/

/-- An encoding name passed to the converter ("UTF8" or "SJIS"). -/
inductive Encoding where
  | UTF8
  | SJIS
deriving DecidableEq, Repr

/-- An open iconv conversion descriptor: the byte conversion it performs,
`none` when the conversion fails part-way. -/
structure IconvDescriptor where
  convertBytes : List Nat → Option (List Nat)

/-- The iconv library environment: which conversion descriptors open
successfully. -/
structure IconvLib where
  iconvOpen : Encoding → Encoding → Option IconvDescriptor

/-- Embeds `IconvHelper` of `encoding_util.cc`: on success the converted
bytes are assigned to the output string; on failure it returns `false`
before the `output->assign`, leaving the output string untouched. -/
def IconvHelper (ic : IconvDescriptor) (input output : List Nat) : Bool × List Nat :=
  match ic.convertBytes input with
  | none => (false, output)
  | some converted => (true, converted)

/-- Embeds the non-Windows `Convert` of `encoding_util.cc`: if `iconv_open`
fails, the output string is set to a copy of the input and `false` is
returned; otherwise the result is `IconvHelper`'s. -/
def EncodingConvert (lib : IconvLib) (src dst : Encoding)
    (input output : List Nat) : Bool × List Nat :=
  match lib.iconvOpen src dst with
  | none => (false, input)
  | some ic => IconvHelper ic input output

/-- Embeds `EncodingUtil::UTF8ToSJIS`: it calls `Convert` and discards the
boolean, returning void — the caller sees only the output string. -/
def UTF8ToSJIS (lib : IconvLib) (input output : List Nat) : List Nat :=
  (EncodingConvert lib .UTF8 .SJIS input output).2

/-- Embeds `EncodingUtil::SJISToUTF8`: it calls `Convert` and discards the
boolean, returning void — the caller sees only the output string. -/
def SJISToUTF8 (lib : IconvLib) (input output : List Nat) : List Nat :=
  (EncodingConvert lib .SJIS .UTF8 input output).2

/-! ### Dictionary tokens and lookups (converter data model)

Modelled from the spec: §3 "Token" and §4.A "Dictionary adapter".  The
system dictionary data blob is not part of the repository; a dictionary is
modelled as the list of its token records. -/

/-- Modelled from the spec: a dictionary token — reading, surface, word
cost, and the POS classification consumed by the candidate synthesiser
(whether the token is a functional word). -/
structure Token where
  key : KString
  value : KString
  wcost : Nat
  functional : Bool
deriving DecidableEq, Repr

/-- Modelled from the spec: `lookup_prefix(key_bytes)` yields every token
whose reading is a prefix of the given bytes. -/
def lookupPrefixTokens (dict : List Token) (s : KString) : List Token :=
  dict.filter (fun t => isPre t.key s)

/-- Modelled from the spec: `lookup_predictive(key_bytes)` yields every
token whose reading starts with the given bytes. -/
def lookupPredictiveTokens (dict : List Token) (s : KString) : List Token :=
  dict.filter (fun t => isPre s t.key)

/-! ### Segments data model

Modelled from the spec: §3 "Segment", "Candidate" and §6 "`segments`
structure". -/

/-- Modelled from the spec: a segment's type, constraining how the lattice
may cross its boundary. -/
inductive SegmentType where
  | FREE
  | FIXED_BOUNDARY
  | FIXED_VALUE
  | HISTORY
  | SUBMITTED
deriving DecidableEq, Repr

/-- Modelled from the spec: one entry of a candidate's
`inner_segment_boundary` — the 4-tuple of byte lengths
(key, value, content key, content value). -/
structure InnerBoundary where
  keyLen : Nat
  valueLen : Nat
  contentKeyLen : Nat
  contentValueLen : Nat
deriving DecidableEq, Repr

/-- Modelled from the spec: a conversion candidate.  The attribute bitset
is modelled by the one attribute the claims consult,
`PARTIALLY_KEY_CONSUMED`. -/
structure Candidate where
  key : KString
  value : KString
  contentKey : KString
  contentValue : KString
  wcost : Nat
  partiallyKeyConsumed : Bool
  innerSegmentBoundary : List InnerBoundary
deriving DecidableEq, Repr

/-- Modelled from the spec: a segment — its reading, its type, and (after
conversion) its candidates. -/
structure Segment where
  key : KString
  segmentType : SegmentType
  candidates : List Candidate
deriving DecidableEq, Repr

/-- Whether a segment is a history segment (HISTORY or SUBMITTED). -/
def Segment.isHistory (s : Segment) : Bool :=
  match s.segmentType with
  | .HISTORY => true
  | .SUBMITTED => true
  | _ => false

/-- Modelled from the spec: the request type of a `segments` structure. -/
inductive RequestType where
  | CONVERSION
  | PREDICTION
  | SUGGESTION
  | PARTIAL_PREDICTION
  | PARTIAL_SUGGESTION
deriving DecidableEq, Repr

/-- Modelled from the spec: the in/out `segments` structure. -/
structure Segments where
  requestType : RequestType
  maxPredictionCandidatesSize : Nat
  segments : List Segment
deriving DecidableEq, Repr

/-- The history segments of a `segments` structure. -/
def historySegments (s : Segments) : List Segment :=
  s.segments.filter Segment.isHistory

/-- The conversion (non-history) segments of a `segments` structure. -/
def conversionSegments (s : Segments) : List Segment :=
  s.segments.filter (fun sg => !sg.isHistory)

/-- The concatenated reading of the history segments. -/
def historyKey (s : Segments) : KString :=
  ((historySegments s).map Segment.key).flatten

/-- Modelled from the spec: the `ConversionRequest` fields the converter
consumes (`create_partial_candidates`, default false). -/
structure ConversionRequest where
  createPartialCandidates : Bool := false
deriving DecidableEq, Repr

/-! ### Lattice nodes and lattice construction

Modelled from the spec: §3 "Node", "Lattice" and §4.G "Lattice builder".
Positions are character indices; the corresponding byte offsets follow
from `byteLen` since every span is aligned to character boundaries. -/

/-- Modelled from the spec: a node's category. -/
inductive NodeCategory where
  | NORMAL
  | HISTORY
  | UNKNOWN
  | PREDICTIVE
deriving DecidableEq, Repr

/-- Modelled from the spec: a lattice node — a token instantiated at a
start position, or a synthetic (unknown-character) node. -/
structure LNode where
  start : Nat
  span : Nat
  key : KString
  value : KString
  wcost : Nat
  functional : Bool
  category : NodeCategory
deriving DecidableEq, Repr

/-- The static data blobs the converter is constructed over: the system
dictionary, the unknown-character fallback cost derived from the POS
matcher, and the connection-cost function. -/
structure ModelData where
  dict : List Token
  unknownCost : Nat
  trans : LNode → LNode → Nat

/-- Modelled from the spec: §4.G steps 2 and 3 — for every position of the
key, the prefix-lookup tokens become NORMAL nodes and a one-character
fallback UNKNOWN node guarantees lattice connectedness. -/
def makeLatticeNodes (D : ModelData) (K : KString) : List LNode :=
  ((List.range K.length).map (fun p =>
    let sub := K.drop p
    ((lookupPrefixTokens D.dict sub).map (fun t =>
      { start := p, span := t.key.length, key := t.key, value := t.value,
        wcost := t.wcost, functional := t.functional,
        category := NodeCategory.NORMAL }))
    ++ [{ start := p, span := 1, key := sub.take 1, value := sub.take 1,
          wcost := D.unknownCost, functional := false,
          category := NodeCategory.UNKNOWN }])).flatten

/-! ### Paths through the lattice, and the best path

Modelled from the spec: §4.H — the Viterbi engine computes the minimum
cost BOS→EOS path under additive word and transition costs.  The model
computes that minimum over the enumeration of complete paths. -/

/-- All complete paths from character position `p` to position `n`: each
step takes a node starting at the current position and advances by its
span.  `fuel` bounds the recursion; any value above `n - p` is exact since
every taken node has positive span. -/
def pathsFrom (nodes : List LNode) (n : Nat) : Nat → Nat → List (List LNode)
  | 0, _ => []
  | fuel + 1, p =>
    if p = n then [[]]
    else
      ((nodes.filter (fun nd => nd.start == p && decide (0 < nd.span))).map
        (fun nd => (pathsFrom nodes n fuel (p + nd.span)).map
          (fun rest => nd :: rest))).flatten

/-- Modelled from the spec: a path's accumulated cost — word costs plus
connection costs between consecutive nodes. -/
def pathCost (D : ModelData) : List LNode → Nat
  | [] => 0
  | [nd] => nd.wcost
  | a :: b :: rest => a.wcost + D.trans a b + pathCost D (b :: rest)

/-- The first element of the list minimising `f` (`none` on `[]`). -/
def argminBy {α : Type} (f : α → Nat) : List α → Option α
  | [] => none
  | a :: rest =>
    match argminBy f rest with
    | none => some a
    | some b => if f a ≤ f b then some a else some b

/-- Modelled from the spec: the minimum-cost complete path through the
lattice over key positions `0 … n`. -/
def bestPath (D : ModelData) (nodes : List LNode) (n : Nat) : Option (List LNode) :=
  argminBy (pathCost D) (pathsFrom nodes n (n + 1) 0)

/-! ### Viterbi back-pointers under fixed segment boundaries

Modelled from the spec: §4.G step 7 and §4.H — a FIXED_BOUNDARY segment
inserts a sentinel forbidding any node from straddling the boundary: in
Viterbi, a right node whose `start < boundary < start + span` is given
infinite predecessor cost for every left node, so its back-pointer stays
∅. -/

/-- Whether a node strictly straddles the boundary position `b`. -/
def straddle (b : Nat) (nd : LNode) : Bool :=
  decide (nd.start < b) && decide (b < nd.start + nd.span)

/-- Whether a node strictly straddles any of the boundaries. -/
def straddlesAny (bs : List Nat) (nd : LNode) : Bool :=
  bs.any (fun b => straddle b nd)

/-- Modelled from the spec: the boundary positions (in characters from the
start of the conversion key) after each FIXED_BOUNDARY conversion
segment. -/
def fixedBoundaries : List Segment → Nat → List Nat
  | [], _ => []
  | sg :: rest, acc =>
    let b := acc + sg.key.length
    (match sg.segmentType with
     | .FIXED_BOUNDARY => [b]
     | _ => []) ++ fixedBoundaries rest b

/-- Modelled from the spec: the Viterbi forward cost of the best path from
BOS ending in the given node, `none` standing for +∞ (unreachable).  A
node straddling a fixed boundary gets infinite cost. -/
def viterbiCost (D : ModelData) (nodes : List LNode) (bs : List Nat) :
    Nat → LNode → Option Nat
  | 0, _ => none
  | fuel + 1, nd =>
    if straddlesAny bs nd then none
    else if nd.start = 0 then some nd.wcost
    else
      match argminBy Prod.fst
        ((nodes.filter (fun l => l.start + l.span == nd.start && decide (0 < l.span))).filterMap
          (fun l => (viterbiCost D nodes bs fuel l).map
            (fun c => (c + D.trans l nd + nd.wcost, l)))) with
      | none => none
      | some (c, _) => some c

/-- Modelled from the spec: the Viterbi back-pointer of a node — `bos` for
a node adjacent to BOS, `node l` for its best predecessor, `null` (∅)
when every predecessor cost is infinite, in particular when the node
straddles a fixed boundary. -/
inductive BackPtr where
  | null
  | bos
  | node (nd : LNode)
deriving DecidableEq, Repr

/-- The per-predecessor cost used by the Viterbi step for a right node: it
is infinite (`none`) whenever the right node straddles a fixed boundary,
per §4.G step 7. -/
def predecessorCost (D : ModelData) (nodes : List LNode) (bs : List Nat)
    (fuel : Nat) (nd l : LNode) : Option Nat :=
  if straddlesAny bs nd then none
  else (viterbiCost D nodes bs fuel l).map (fun c => c + D.trans l nd + nd.wcost)

/-- Modelled from the spec: the back-pointer Viterbi assigns to a node. -/
def viterbiPrev (D : ModelData) (nodes : List LNode) (bs : List Nat)
    (nd : LNode) : BackPtr :=
  if nd.start = 0 then
    (if straddlesAny bs nd then BackPtr.null else BackPtr.bos)
  else
    match argminBy Prod.fst
      ((nodes.filter (fun l => l.start + l.span == nd.start && decide (0 < l.span))).filterMap
        (fun l => (predecessorCost D nodes bs nd.start nd l).map (fun c => (c, l)))) with
    | none => BackPtr.null
    | some (_, l) => BackPtr.node l

/-! ### Candidate synthesis

Modelled from the spec: §4.I — paths are projected to segment candidates;
prediction derives inner segment boundaries from the grouping of each
content word with its trailing functional words. -/

/-- Groups the nodes of a path: a non-functional (content) node starts a
new group, functional nodes attach to the current group. -/
def groupPathAux (cur : List LNode) : List LNode → List (List LNode)
  | [] => [cur.reverse]
  | nd :: rest =>
    if nd.functional then groupPathAux (nd :: cur) rest
    else cur.reverse :: groupPathAux [nd] rest

/-- Modelled from the spec: the inner-segment grouping of a path — each
group is one content word together with its trailing functional words. -/
def groupPath : List LNode → List (List LNode)
  | [] => []
  | nd :: rest => groupPathAux [nd] rest

/-- The concatenated reading of a list of nodes. -/
def flatKeys (l : List LNode) : KString := (l.map LNode.key).flatten

/-- The concatenated surface of a list of nodes. -/
def flatValues (l : List LNode) : KString := (l.map LNode.value).flatten

/-- The content part of an inner-segment group: the nodes before its
trailing functional words. -/
def contentPart (g : List LNode) : List LNode :=
  g.takeWhile (fun nd => !nd.functional)

/-- Modelled from the spec: the 4-tuple emitted for one inner-segment
group — key, value, content-key and content-value byte lengths, where
content excludes the trailing functional-word span. -/
def innerTuple (g : List LNode) : InnerBoundary :=
  { keyLen := byteLen (flatKeys g),
    valueLen := byteLen (flatValues g),
    contentKeyLen := byteLen (flatKeys (contentPart g)),
    contentValueLen := byteLen (flatValues (contentPart g)) }

/-- Modelled from the spec: the candidate a path projects to in CONVERSION
mode; its `inner_segment_boundary` is empty. -/
def pathToConvCandidate (D : ModelData) (path : List LNode) : Candidate :=
  { key := flatKeys path, value := flatValues path,
    contentKey := flatKeys path, contentValue := flatValues path,
    wcost := pathCost D path, partiallyKeyConsumed := false,
    innerSegmentBoundary := [] }

/-- Modelled from the spec: the candidate a path projects to in PREDICTION
mode, carrying the inner segment boundaries derived from the path's
content/functional grouping. -/
def pathToPredCandidate (D : ModelData) (path : List LNode) : Candidate :=
  { key := flatKeys path, value := flatValues path,
    contentKey := flatKeys path, contentValue := flatValues path,
    wcost := pathCost D path, partiallyKeyConsumed := false,
    innerSegmentBoundary := (groupPath path).map innerTuple }

/-- Modelled from the spec: auto partial suggestion — candidates whose
reading is a strict prefix of the segment reading, flagged
`PARTIALLY_KEY_CONSUMED`. -/
def partialCandidates (D : ModelData) (K : KString) : List Candidate :=
  ((lookupPrefixTokens D.dict K).filter (fun t => decide (t.key.length < K.length))).map
    (fun t =>
      { key := t.key, value := t.value, contentKey := t.key,
        contentValue := t.value, wcost := t.wcost,
        partiallyKeyConsumed := true, innerSegmentBoundary := [] })

/-- Modelled from the spec: predictive completion candidates — dictionary
completions whose reading strictly extends the segment reading. -/
def predictiveCandidates (D : ModelData) (K : KString) : List Candidate :=
  ((lookupPredictiveTokens D.dict K).filter (fun t => decide (K.length < t.key.length))).map
    (fun t =>
      { key := t.key, value := t.value, contentKey := t.key,
        contentValue := t.value, wcost := t.wcost,
        partiallyKeyConsumed := false, innerSegmentBoundary := [] })

/-! ### Dummy candidates

Modelled from the spec: §4.I "Dummy candidates (`InsertDummyCandidates`)"
— when the produced candidate count is below the requested size, synthetic
candidates derived from the top candidate by substituting hiragana,
katakana and half-width surfaces are appended; each has strictly greater
`wcost` than the top candidate and an empty inner segment boundary. -/

/-- Hiragana→katakana transliteration of one character (the two kana
blocks are offset by 0x60). -/
def toKatakanaChar (c : KChar) : KChar :=
  if 0x3041 ≤ c.code ∧ c.code ≤ 0x3096 then ⟨c.code + 0x60⟩ else c

/-- Katakana transliteration of a reading. -/
def toKatakana (s : KString) : KString := s.map toKatakanaChar

/-- Modelled from the spec: half-width transliteration of a reading.  The
exact transliteration table is data; the model maps each kana into the
half-width katakana block. -/
def toHalfWidthKatakana (s : KString) : KString :=
  s.map (fun c =>
    if 0x3041 ≤ c.code ∧ c.code ≤ 0x3096 then ⟨0xFF66 + (c.code - 0x3041)⟩ else c)

/-- The synthetic surfaces substituted into the dummy candidates, derived
from the segment's reading. -/
def dummySurfaces (key : KString) : List KString :=
  [key, toKatakana key, toHalfWidthKatakana key]

/-- The synthetic candidates for the given surfaces: copies of the top
candidate with the surface substituted, a strictly increasing `wcost`
above `base`, and an empty inner segment boundary. -/
def dummyCandidates (top : Candidate) (base : Nat) : List KString → List Candidate
  | [] => []
  | v :: vs =>
    { top with value := v, contentValue := v, wcost := base + 1,
               innerSegmentBoundary := [] } :: dummyCandidates top (base + 1) vs

/-- Modelled from the spec: `InsertDummyCandidates(segment, size)` appends
synthetic candidates derived from the top candidate while the candidate
count is below `size`. -/
def InsertDummyCandidates (seg : Segment) (size : Nat) : Segment :=
  match seg.candidates with
  | [] => seg
  | top :: _ =>
    let need := size - seg.candidates.length
    { seg with candidates :=
        seg.candidates ++ dummyCandidates top top.wcost ((dummySurfaces seg.key).take need) }

/-! ### Predictive lookup keys

Modelled from the spec: §4.G step 5 — predictive nodes are emitted only
for tail positions of the final conversion segment; a history segment's
tail position must not trigger predictive lookup. -/

/-- The reading of the final conversion segment (empty when there is
none). -/
def lastConvKey (s : Segments) : KString :=
  (((conversionSegments s).map Segment.key).reverse).headD []

/-- Modelled from the spec: the keys `MakeLatticeNodesForPredictiveNodes`
passes to `lookup_predictive` — the non-empty suffixes of the final
conversion segment's reading. -/
def predictiveLookupKeys (s : Segments) : List KString :=
  (lastConvKey s).tails.filter (fun t => !t.isEmpty)

/-! ### The driver

Modelled from the spec: §6 entry points `Convert` / `ConvertForRequest`
and §7 error handling — invalid input fails the call, an over-long
history is dropped and conversion proceeds with the conversion segments
only. -/

/-- Modelled from the spec: the history-length bound of §7 ("exceeds bound
(e.g. 256 bytes)"). -/
def kMaxHistoryBytes : Nat := 256

/-- The byte length of the concatenated history reading. -/
def historyByteLen (s : Segments) : Nat := byteLen (historyKey s)

/-- Modelled from the spec: CONVERSION-mode rewrite of one conversion
segment — the best lattice path over the segment's reading becomes its
candidate, with an empty inner segment boundary. -/
def convertSegmentCONV (D : ModelData) (seg : Segment) : Option Segment :=
  (bestPath D (makeLatticeNodes D seg.key) seg.key.length).map
    (fun path => { seg with candidates := [pathToConvCandidate D path] })

/-- Modelled from the spec: PREDICTION-mode rewrite of one conversion
segment — up to `max_prediction_candidates_size` candidates: the best
path's candidate (with inner segment boundaries), the partial-prefix
candidates when the request enables them, and predictive completions;
dummy candidates fill up a sparse result. -/
def convertSegmentPRED (D : ModelData) (req : ConversionRequest) (maxc : Nat)
    (seg : Segment) : Option Segment :=
  (bestPath D (makeLatticeNodes D seg.key) seg.key.length).map
    (fun path =>
      let cands :=
        (pathToPredCandidate D path ::
          ((if req.createPartialCandidates then partialCandidates D seg.key else [])
            ++ predictiveCandidates D seg.key)).take maxc
      InsertDummyCandidates { seg with candidates := cands } maxc)

/-- Modelled from the spec: the per-segment rewrite the driver applies,
dispatched on the request type. -/
def rewriteSegment (D : ModelData) (req : ConversionRequest)
    (rt : RequestType) (maxc : Nat) (seg : Segment) : Option Segment :=
  match rt with
  | .CONVERSION => convertSegmentCONV D seg
  | _ => convertSegmentPRED D req maxc seg

/-- Rewrites every conversion segment, failing if any rewrite fails. -/
def traverseSegs (f : Segment → Option Segment) : List Segment → Option (List Segment)
  | [] => some []
  | sg :: rest =>
    (f sg).bind (fun sg' => (traverseSegs f rest).map (fun rest' => sg' :: rest'))

/-- Modelled from the spec: `ConvertForRequest(request, segments)` — the
primary entry point.  It validates the input (at least one conversion
segment, none with an empty reading), drops all history segments when the
concatenated history reading exceeds the bound, rewrites each conversion
segment, and reassembles the structure. -/
def ConvertForRequest (D : ModelData) (req : ConversionRequest)
    (s : Segments) : Option Segments :=
  if (conversionSegments s).isEmpty
      || (conversionSegments s).any (fun sg => sg.key.isEmpty) then none
  else
    (traverseSegs (rewriteSegment D req s.requestType s.maxPredictionCandidatesSize)
        (conversionSegments s)).map
      (fun convOut =>
        { s with segments :=
            (if historyByteLen s ≤ kMaxHistoryBytes then historySegments s else [])
              ++ convOut })

/-- Modelled from the spec: `Convert(segments)` — the convenience entry
point using a default request. -/
def Convert (D : ModelData) (s : Segments) : Option Segments :=
  ConvertForRequest D {} s

/-! ### Concrete characters and scenario data

The hiragana, katakana and kanji characters occurring in the test
scenarios of the spec (§8), by Unicode code point; every one of them
encodes to 3 bytes in UTF-8. -/

def hA : KChar := ⟨0x3042⟩
def hI : KChar := ⟨0x3044⟩
def hU : KChar := ⟨0x3046⟩
def hE : KChar := ⟨0x3048⟩
def hO : KChar := ⟨0x304A⟩
def hKa : KChar := ⟨0x304B⟩
def hKi : KChar := ⟨0x304D⟩
def hKu : KChar := ⟨0x304F⟩
def hGa : KChar := ⟨0x304C⟩
def hShi : KChar := ⟨0x3057⟩
def hJi : KChar := ⟨0x3058⟩
def hSu : KChar := ⟨0x3059⟩
def hTa : KChar := ⟨0x305F⟩
def hTe : KChar := ⟨0x3066⟩
def hTo : KChar := ⟨0x3068⟩
def hDe : KChar := ⟨0x3067⟩
def hNa : KChar := ⟨0x306A⟩
def hNe : KChar := ⟨0x306D⟩
def hNo : KChar := ⟨0x306E⟩
def hHa : KChar := ⟨0x306F⟩
def hMa : KChar := ⟨0x307E⟩
def hMe : KChar := ⟨0x3081⟩
def hYoSmall : KChar := ⟨0x3087⟩
def hYo : KChar := ⟨0x3088⟩
def hYaSmall : KChar := ⟨0x3083⟩
def hRo : KChar := ⟨0x308D⟩
def hRu : KChar := ⟨0x308B⟩
def hWa : KChar := ⟨0x308F⟩
def hN : KChar := ⟨0x3093⟩
def kjWatashi : KChar := ⟨0x79C1⟩
def kjNa : KChar := ⟨0x540D⟩
def kjMae : KChar := ⟨0x524D⟩
def kjNaka : KChar := ⟨0x4E2D⟩
def ktNo : KChar := ⟨0x30CE⟩
def kjShima : KChar := ⟨0x5CF6⟩
def kjI : KChar := ⟨0x4E95⟩
def kjTe : KChar := ⟨0x624B⟩
def kjYoroshi : KChar := ⟨0x5B9C⟩

/-- "わたし" -/
def kWatashi : KString := [hWa, hTa, hShi]
/-- "の" -/
def kNo : KString := [hNo]
/-- "なまえ" -/
def kNamae : KString := [hNa, hMa, hE]
/-- "は" -/
def kHa : KString := [hHa]
/-- "なかの" -/
def kNakano : KString := [hNa, hKa, hNo]
/-- "です" -/
def kDesu : KString := [hDe, hSu]
/-- "わたしのなまえはなかのです" (scenario S2/S3) -/
def kS2Key : KString := kWatashi ++ kNo ++ kNamae ++ kHa ++ kNakano ++ kDesu
/-- "よろしくおねがいしま" (scenario S1) -/
def kYoroshiku : KString := [hYo, hRo, hShi, hKu, hO, hNe, hGa, hI, hShi, hMa]
/-- "しま" -/
def kShima : KString := [hShi, hMa]
/-- "しょうめい" (scenario S4, FIXED_BOUNDARY segment) -/
def kShoumei : KString := [hShi, hYoSmall, hU, hMe, hI]
/-- "できる" (scenario S4, FREE segment) -/
def kDekiru : KString := [hDe, hKi, hRu]
/-- "いで" (a token straddling the S4 boundary) -/
def kIde : KString := [hI, hDe]
/-- "いいんじゃな" (scenario S7 history) -/
def kIinjana : KString := [hI, hI, hN, hJi, hYaSmall, hNa]
/-- "いか" (scenario S7 conversion key) -/
def kIka : KString := [hI, hKa]
/-- "ないか" (the key that must not be queried in S7) -/
def kNaika : KString := [hNa, hI, hKa]
/-- "あ" (scenario S5) -/
def kA1 : KString := [hA]
/-- "てすと" (scenario S6) -/
def kTesuto : KString := [hTe, hSu, hTo]

/-- The mock dictionary: the token records behind the test scenarios of
the spec (the mock data manager's blob is data, not logic). -/
def mockTokens : List Token :=
  [ { key := kWatashi, value := [kjWatashi], wcost := 10, functional := false },
    { key := kNo, value := kNo, wcost := 5, functional := true },
    { key := kNamae, value := [kjNa, kjMae], wcost := 10, functional := false },
    { key := kHa, value := kHa, wcost := 5, functional := true },
    { key := kNakano, value := [kjNaka, ktNo], wcost := 10, functional := false },
    { key := kDesu, value := kDesu, wcost := 5, functional := true },
    { key := kIde, value := [kjI, kjTe], wcost := 10, functional := false },
    { key := kShima, value := [kjShima], wcost := 10, functional := false },
    { key := kYoroshiku ++ [hSu], value := [kjYoroshi], wcost := 10, functional := false } ]

/-- The model data of the test scenarios: the mock dictionary, a large
unknown-character cost and a trivial connection-cost table. -/
def mockData : ModelData :=
  { dict := mockTokens, unknownCost := 3000, trans := fun _ _ => 0 }

/-- A conversion segment holding only a reading. -/
def convSeg (key : KString) : Segment :=
  { key := key, segmentType := .FREE, candidates := [] }

/-- The PREDICTION input of scenario S1. -/
def s1In : Segments :=
  { requestType := .PREDICTION, maxPredictionCandidatesSize := 10,
    segments := [convSeg kYoroshiku] }

/-- The PREDICTION input of scenario S2 (max 1 candidate). -/
def s2In : Segments :=
  { requestType := .PREDICTION, maxPredictionCandidatesSize := 1,
    segments := [convSeg kS2Key] }

/-- The PREDICTION input of scenario S2's key with max 10 candidates (the
auto-partial-suggestion scenario). -/
def s2In10 : Segments :=
  { requestType := .PREDICTION, maxPredictionCandidatesSize := 10,
    segments := [convSeg kS2Key] }

/-- The CONVERSION input of scenario S3. -/
def s3In : Segments :=
  { requestType := .CONVERSION, maxPredictionCandidatesSize := 0,
    segments := [convSeg kS2Key] }

/-- The segments of scenario S4: a FIXED_BOUNDARY segment "しょうめい"
followed by a FREE segment "できる". -/
def s4Segs : List Segment :=
  [ { key := kShoumei, segmentType := .FIXED_BOUNDARY, candidates := [] },
    { key := kDekiru, segmentType := .FREE, candidates := [] } ]

/-- The lattice key of scenario S4, "しょうめいできる". -/
def s4Key : KString := kShoumei ++ kDekiru

/-- One history segment of scenario S5: "あ" repeated 100 times. -/
def historySeg100 : Segment :=
  { key := List.replicate 100 hA, segmentType := .HISTORY,
    candidates := [ { key := List.replicate 100 hA, value := List.replicate 100 hA,
                      contentKey := List.replicate 100 hA,
                      contentValue := List.replicate 100 hA, wcost := 0,
                      partiallyKeyConsumed := false, innerSegmentBoundary := [] } ] }

/-- The CONVERSION input of scenario S5: four 100-character history
segments and the conversion segment "あ". -/
def s5In : Segments :=
  { requestType := .CONVERSION, maxPredictionCandidatesSize := 0,
    segments := [historySeg100, historySeg100, historySeg100, historySeg100, convSeg kA1] }

/-- The segments of scenario S7: committed history "いいんじゃな" and
conversion key "いか". -/
def s7In : Segments :=
  { requestType := .PREDICTION, maxPredictionCandidatesSize := 10,
    segments :=
      [ { key := kIinjana, segmentType := .HISTORY,
          candidates := [ { key := kIinjana, value := kIinjana, contentKey := kIinjana,
                            contentValue := kIinjana, wcost := 0,
                            partiallyKeyConsumed := false, innerSegmentBoundary := [] } ] },
        convSeg kIka ] }

/-- The segment of scenario S6, "てすと" with the single candidate
"test", carrying a non-empty inner segment boundary as in the
`DummyCandidatesInnerSegmentBoundary` test. -/
def s6Seg : Segment :=
  { key := kTesuto, segmentType := .FREE,
    candidates := [ { key := kTesuto, value := [⟨0x74⟩, ⟨0x65⟩, ⟨0x73⟩, ⟨0x74⟩],
                      contentKey := kTesuto, contentValue := [⟨0x74⟩, ⟨0x65⟩, ⟨0x73⟩, ⟨0x74⟩],
                      wcost := 20, partiallyKeyConsumed := false,
                      innerSegmentBoundary := [⟨3, 2, 3, 2⟩, ⟨6, 2, 6, 2⟩] } ] }

/-! ### Derived concrete values used by the claim witnesses -/

/-- The empty `segments` structure (used only as a `getD` default). -/
def noSegments : Segments :=
  { requestType := .CONVERSION, maxPredictionCandidatesSize := 0, segments := [] }

/-- An empty candidate (used only as a `getD` default). -/
def emptyCandidate : Candidate :=
  { key := [], value := [], contentKey := [], contentValue := [], wcost := 0,
    partiallyKeyConsumed := false, innerSegmentBoundary := [] }

/-- Whether a conversion output contains a candidate whose key is a strict
prefix of its segment's key (the check of the
`AutoPartialSuggestionTestHelper`). -/
def includesPrefixCandidate (o : Option Segments) : Bool :=
  match o with
  | none => false
  | some out =>
    (conversionSegments out).any (fun sg =>
      sg.candidates.any (fun c => (!(c.key == sg.key)) && isPre c.key sg.key))

/-- The output of the S1 prediction call. -/
def s1Out : Segments := (ConvertForRequest mockData {} s1In).getD noSegments

/-- The output of the S2 prediction call (max 1 candidate). -/
def s2Out : Segments := (ConvertForRequest mockData {} s2In).getD noSegments

/-- The conversion segment of the S2 output. -/
def s2OutSeg : Segment := (conversionSegments s2Out).headD (convSeg [])

/-- The single candidate of the S2 output. -/
def s2OutCand : Candidate := s2OutSeg.candidates.headD emptyCandidate

/-- The output of the S3 conversion call. -/
def s3Out : Segments := (Convert mockData s3In).getD noSegments

/-- The conversion segment of the S3 output. -/
def s3OutSeg : Segment := (conversionSegments s3Out).headD (convSeg [])

/-- The candidate of the S3 output. -/
def s3OutCand : Candidate := s3OutSeg.candidates.headD emptyCandidate

/-- The output of the auto-partial-suggestion prediction call (S2's key,
max 10 candidates, `create_partial_candidates = true`). -/
def s2Out10T : Segments :=
  (ConvertForRequest mockData { createPartialCandidates := true } s2In10).getD noSegments

/-- The conversion segment of that output. -/
def s2Out10TSeg : Segment := (conversionSegments s2Out10T).headD (convSeg [])

/-- Its second candidate: the partial candidate "わたし". -/
def s2Out10TCand : Candidate := s2Out10TSeg.candidates.getD 1 emptyCandidate

/-- The node "いで" of the S4 lattice that strictly straddles the fixed
boundary. -/
def s4StraddleNode : LNode :=
  { start := 4, span := 2, key := kIde, value := [kjI, kjTe], wcost := 10,
    functional := false, category := .NORMAL }

/-- The single candidate of scenario S6's segment. -/
def s6Cand : Candidate :=
  { key := kTesuto, value := [⟨0x74⟩, ⟨0x65⟩, ⟨0x73⟩, ⟨0x74⟩],
    contentKey := kTesuto, contentValue := [⟨0x74⟩, ⟨0x65⟩, ⟨0x73⟩, ⟨0x74⟩],
    wcost := 20, partiallyKeyConsumed := false,
    innerSegmentBoundary := [⟨3, 2, 3, 2⟩, ⟨6, 2, 6, 2⟩] }

/-- The first synthetic candidate appended to scenario S6's segment. -/
def s6Dummy1 : Candidate :=
  (InsertDummyCandidates s6Seg 10).candidates.getD 1 emptyCandidate

/-- An iconv environment in which `iconv_open` fails. -/
def iconvOpenFails : IconvLib := ⟨fun _ _ => none⟩

/-- An iconv environment in which `iconv_open` succeeds but the byte
conversion fails part-way on every input. -/
def iconvConvertFails : IconvLib := ⟨fun _ _ => some ⟨fun _ => none⟩⟩

/-! ### Basic lemmas -/

theorem KChar.width_pos (c : KChar) : 0 < c.width := by
  unfold KChar.width
  split <;> try split <;> try split
  all_goals simp

theorem byteLen_append (a b : KString) : byteLen (a ++ b) = byteLen a + byteLen b := by
  simp [byteLen]

theorem byteLen_pos_of_ne_nil (s : KString) (h : s ≠ []) : 0 < byteLen s := by
  match s, h with
  | c :: rest, _ =>
    simp only [byteLen, List.map_cons, List.sum_cons]
    have := c.width_pos
    omega

theorem isPre_eq_take : ∀ s t : KString, isPre s t = true → s = t.take s.length
  | [], _, _ => rfl
  | _ :: _, [], h => by simp [isPre] at h
  | a :: as, b :: bs, h => by
    simp only [isPre, Bool.and_eq_true, beq_iff_eq] at h
    simp only [List.length_cons, List.take_succ_cons]
    rw [h.1]
    exact congrArg (List.cons b) (isPre_eq_take as bs h.2)

theorem isPre_length_le : ∀ s t : KString, isPre s t = true → s.length ≤ t.length := by
  intro s t h
  have := isPre_eq_take s t h
  have h2 := congrArg List.length this
  simp at h2
  omega

theorem isPre_byteLen_le (s t : KString) (h : isPre s t = true) : byteLen s ≤ byteLen t := by
  have hs := isPre_eq_take s t h
  have : t = s ++ t.drop s.length := by
    conv_lhs => rw [← List.take_append_drop s.length t]
    rw [← hs]
  rw [this, byteLen_append]
  omega

theorem isPre_byteLen_lt (s t : KString) (h : isPre s t = true)
    (hl : s.length < t.length) : byteLen s < byteLen t := by
  have hs := isPre_eq_take s t h
  have ht : t = s ++ t.drop s.length := by
    conv_lhs => rw [← List.take_append_drop s.length t]
    rw [← hs]
  have hd : t.drop s.length ≠ [] := by
    intro hnil
    have := congrArg List.length hnil
    simp at this
    omega
  have := byteLen_pos_of_ne_nil _ hd
  rw [ht, byteLen_append]
  omega

theorem argminBy_isSome {α : Type} (f : α → Nat) :
    ∀ l : List α, l ≠ [] → (argminBy f l).isSome = true
  | [], h => absurd rfl h
  | a :: rest, _ => by
    simp only [argminBy]
    match argminBy f rest with
    | none => rfl
    | some b =>
      dsimp only
      split <;> rfl

theorem argminBy_mem {α : Type} (f : α → Nat) :
    ∀ (l : List α) (a : α), argminBy f l = some a → a ∈ l
  | [], a, h => by simp [argminBy] at h
  | x :: rest, a, h => by
    simp only [argminBy] at h
    match hrec : argminBy f rest with
    | none =>
      rw [hrec] at h
      simp only [Option.some.injEq] at h
      simp [← h]
    | some b =>
      rw [hrec] at h
      dsimp only at h
      split at h
      · simp only [Option.some.injEq] at h
        simp [← h]
      · simp only [Option.some.injEq] at h
        exact List.mem_cons_of_mem x (h ▸ argminBy_mem f rest b hrec)

theorem groupPathAux_flatten (cur : List LNode) :
    ∀ l : List LNode, (groupPathAux cur l).flatten = cur.reverse ++ l
  | [] => by simp [groupPathAux]
  | nd :: rest => by
    simp only [groupPathAux]
    split
    · rw [groupPathAux_flatten (nd :: cur) rest]
      simp
    · simp only [List.flatten_cons]
      rw [groupPathAux_flatten [nd] rest]
      simp

theorem groupPath_flatten : ∀ l : List LNode, (groupPath l).flatten = l
  | [] => rfl
  | nd :: rest => by
    simp only [groupPath]
    rw [groupPathAux_flatten [nd] rest]
    simp

/-! ### Structural lemmas about the modelled converter -/

theorem traverseSegs_length (f : Segment → Option Segment) :
    ∀ (l : List Segment) (l' : List Segment), traverseSegs f l = some l' → l'.length = l.length
  | [], l', h => by
    simp only [traverseSegs, Option.some.injEq] at h
    simp [← h]
  | sg :: rest, l', h => by
    simp only [traverseSegs, Option.bind_eq_some, Option.map_eq_some'] at h
    obtain ⟨sg', _, rest', hrest, rfl⟩ := h
    simp [traverseSegs_length f rest rest' hrest]

theorem traverseSegs_mem (f : Segment → Option Segment) :
    ∀ (l : List Segment) (l' : List Segment), traverseSegs f l = some l' →
      ∀ b ∈ l', ∃ a ∈ l, f a = some b
  | [], l', h => by
    simp only [traverseSegs, Option.some.injEq] at h
    intro b hb
    rw [← h] at hb
    simp at hb
  | sg :: rest, l', h => by
    simp only [traverseSegs, Option.bind_eq_some, Option.map_eq_some'] at h
    obtain ⟨sg', hsg, rest', hrest, rfl⟩ := h
    intro b hb
    rw [List.mem_cons] at hb
    cases hb with
    | inl he => exact ⟨sg, List.mem_cons_self sg rest, he ▸ hsg⟩
    | inr hm =>
      obtain ⟨a, ha, hfa⟩ := traverseSegs_mem f rest rest' hrest b hm
      exact ⟨a, List.mem_cons_of_mem sg ha, hfa⟩

theorem traverseSegs_singleton (f : Segment → Option Segment) (a : Segment)
    (l' : List Segment) (h : traverseSegs f [a] = some l') :
    ∃ b, f a = some b ∧ l' = [b] := by
  simp only [traverseSegs, Option.bind_eq_some, Option.map_eq_some',
    Option.some.injEq] at h
  obtain ⟨b, hb, rest', hrest, rfl⟩ := h
  exact ⟨b, hb, by rw [← hrest]⟩

theorem makeLatticeNodes_shape (D : ModelData) (K : KString) :
    ∀ nd ∈ makeLatticeNodes D K, nd.key = (K.drop nd.start).take nd.span := by
  intro nd hnd
  simp only [makeLatticeNodes, List.mem_flatten, List.mem_map] at hnd
  obtain ⟨l, ⟨p, hp, rfl⟩, hmem⟩ := hnd
  rw [List.mem_append] at hmem
  cases hmem with
  | inl hdict =>
    rw [List.mem_map] at hdict
    obtain ⟨t, ht, rfl⟩ := hdict
    have hpre : isPre t.key (K.drop p) = true := by
      simp only [lookupPrefixTokens, List.mem_filter] at ht
      exact ht.2
    exact isPre_eq_take _ _ hpre
  | inr hunk =>
    simp only [List.mem_singleton] at hunk
    subst hunk
    rfl

theorem makeLatticeNodes_unknown (D : ModelData) (K : KString) (p : Nat)
    (h : p < K.length) :
    ∃ nd ∈ makeLatticeNodes D K, nd.start = p ∧ nd.span = 1 := by
  refine ⟨{ start := p, span := 1, key := (K.drop p).take 1,
            value := (K.drop p).take 1, wcost := D.unknownCost,
            functional := false, category := NodeCategory.UNKNOWN },
    ?_, rfl, rfl⟩
  simp only [makeLatticeNodes, List.mem_flatten, List.mem_map]
  exact ⟨_, ⟨p, List.mem_range.2 h, rfl⟩, by simp⟩

theorem pathsFrom_flatKeys (K : KString) (nodes : List LNode)
    (hshape : ∀ nd ∈ nodes, nd.key = (K.drop nd.start).take nd.span) :
    ∀ (fuel p : Nat) (path : List LNode), path ∈ pathsFrom nodes K.length fuel p →
      flatKeys path = K.drop p := by
  intro fuel
  induction fuel with
  | zero => intro p path h; simp [pathsFrom] at h
  | succ f ih =>
    intro p path h
    simp only [pathsFrom] at h
    split at h
    · next heq =>
      simp only [List.mem_singleton] at h
      subst h
      rw [heq, List.drop_length]
      rfl
    · next hne =>
      simp only [List.mem_flatten, List.mem_map] at h
      obtain ⟨l, ⟨nd, hnd, rfl⟩, hpath⟩ := h
      rw [List.mem_map] at hpath
      obtain ⟨rest, hrest, rfl⟩ := hpath
      rw [List.mem_filter] at hnd
      obtain ⟨hmem, hcond⟩ := hnd
      simp only [Bool.and_eq_true, beq_iff_eq, decide_eq_true_eq] at hcond
      obtain ⟨hstart, hspan⟩ := hcond
      have hkey := hshape nd hmem
      have hrec := ih (p + nd.span) rest hrest
      simp only [flatKeys, List.map_cons, List.flatten_cons] at hrec ⊢
      rw [hrec, hkey, hstart]
      rw [show K.drop (p + nd.span) = (K.drop p).drop nd.span from by
        rw [List.drop_drop, Nat.add_comm]]
      exact List.take_append_drop _ _

theorem pathsFrom_ne_nil (nodes : List LNode) (n : Nat)
    (hu : ∀ q, q < n → ∃ nd ∈ nodes, nd.start = q ∧ nd.span = 1) :
    ∀ (fuel p : Nat), p ≤ n → n - p < fuel → pathsFrom nodes n fuel p ≠ [] := by
  intro fuel
  induction fuel with
  | zero => intro p hp hf; omega
  | succ f ih =>
    intro p hp hf
    simp only [pathsFrom]
    split
    · simp
    · next hne =>
      have hplt : p < n := by
        cases Nat.lt_or_ge p n with
        | inl h => exact h
        | inr h => exact absurd (Nat.le_antisymm hp h) hne
      obtain ⟨nd, hnd, hstart, hspan⟩ := hu p hplt
      intro hflat
      rw [List.flatten_eq_nil_iff] at hflat
      have hcond : (nd.start == p && decide (0 < nd.span)) = true := by
        simp [hstart, hspan]
      have hfmem : nd ∈ nodes.filter (fun nd => nd.start == p && decide (0 < nd.span)) :=
        List.mem_filter.2 ⟨hnd, hcond⟩
      have hmem1 := List.mem_map_of_mem
        (fun nd => (pathsFrom nodes n f (p + nd.span)).map (fun rest => nd :: rest))
        hfmem
      have hnil := hflat _ hmem1
      rw [List.map_eq_nil_iff] at hnil
      have hrec := ih (p + nd.span) (by omega) (by omega)
      exact hrec hnil

theorem dummyCandidates_length (top : Candidate) :
    ∀ (base : Nat) (vs : List KString), (dummyCandidates top base vs).length = vs.length
  | _, [] => rfl
  | base, v :: vs => by
    simp [dummyCandidates, dummyCandidates_length top (base + 1) vs]

theorem dummyCandidates_mem (top : Candidate) :
    ∀ (base : Nat) (vs : List KString) (c : Candidate),
      c ∈ dummyCandidates top base vs → top.wcost ≤ base →
      top.wcost < c.wcost ∧ c.innerSegmentBoundary = [] ∧ c.key = top.key ∧
        c.partiallyKeyConsumed = top.partiallyKeyConsumed
  | base, [], c, h, _ => by simp [dummyCandidates] at h
  | base, v :: vs, c, h, hb => by
    simp only [dummyCandidates, List.mem_cons] at h
    cases h with
    | inl he =>
      subst he
      exact ⟨by simp; omega, rfl, rfl, rfl⟩
    | inr hm => exact dummyCandidates_mem top (base + 1) vs c hm (by omega)

theorem InsertDummyCandidates_key (seg : Segment) (size : Nat) :
    (InsertDummyCandidates seg size).key = seg.key := by
  unfold InsertDummyCandidates
  split <;> rfl

theorem InsertDummyCandidates_type (seg : Segment) (size : Nat) :
    (InsertDummyCandidates seg size).segmentType = seg.segmentType := by
  unfold InsertDummyCandidates
  split <;> rfl

theorem InsertDummyCandidates_cands (seg : Segment) (size : Nat) :
    ∃ ds : List Candidate,
      (InsertDummyCandidates seg size).candidates = seg.candidates ++ ds ∧
      ∀ c ∈ ds, ∃ top, seg.candidates.head? = some top ∧
        top.wcost < c.wcost ∧ c.innerSegmentBoundary = [] ∧ c.key = top.key ∧
        c.partiallyKeyConsumed = top.partiallyKeyConsumed := by
  unfold InsertDummyCandidates
  split
  · next hnil => exact ⟨[], by simp, by simp⟩
  · next top rest hcons =>
    refine ⟨_, rfl, ?_⟩
    intro c hc
    exact ⟨top, by rw [hcons]; rfl,
      dummyCandidates_mem top top.wcost _ c hc (Nat.le_refl _)⟩

theorem Segment.isHistory_congr (a b : Segment)
    (h : b.segmentType = a.segmentType) : b.isHistory = a.isHistory := by
  unfold Segment.isHistory
  rw [h]

theorem convertSegmentCONV_inv (D : ModelData) (seg seg' : Segment)
    (h : convertSegmentCONV D seg = some seg') :
    ∃ path, bestPath D (makeLatticeNodes D seg.key) seg.key.length = some path ∧
      seg' = { seg with candidates := [pathToConvCandidate D path] } := by
  unfold convertSegmentCONV at h
  rw [Option.map_eq_some'] at h
  obtain ⟨path, hp, he⟩ := h
  exact ⟨path, hp, he.symm⟩

theorem convertSegmentPRED_inv (D : ModelData) (req : ConversionRequest)
    (maxc : Nat) (seg seg' : Segment)
    (h : convertSegmentPRED D req maxc seg = some seg') :
    ∃ path, bestPath D (makeLatticeNodes D seg.key) seg.key.length = some path ∧
      seg' = InsertDummyCandidates
        { seg with candidates :=
            (pathToPredCandidate D path ::
              ((if req.createPartialCandidates then partialCandidates D seg.key else [])
                ++ predictiveCandidates D seg.key)).take maxc } maxc := by
  unfold convertSegmentPRED at h
  rw [Option.map_eq_some'] at h
  obtain ⟨path, hp, he⟩ := h
  exact ⟨path, hp, he.symm⟩

theorem rewriteSegment_key_type (D : ModelData) (req : ConversionRequest)
    (rt : RequestType) (maxc : Nat) (seg seg' : Segment)
    (h : rewriteSegment D req rt maxc seg = some seg') :
    seg'.key = seg.key ∧ seg'.segmentType = seg.segmentType := by
  unfold rewriteSegment at h
  cases rt
  case CONVERSION =>
    obtain ⟨path, _, rfl⟩ := convertSegmentCONV_inv D seg seg' h
    exact ⟨rfl, rfl⟩
  all_goals {
    obtain ⟨path, _, rfl⟩ := convertSegmentPRED_inv D req maxc seg seg' h
    exact ⟨InsertDummyCandidates_key _ _, InsertDummyCandidates_type _ _⟩ }

theorem ConvertForRequest_decomp (D : ModelData) (req : ConversionRequest)
    (s out : Segments) (h : ConvertForRequest D req s = some out) :
    ∃ convOut,
      traverseSegs (rewriteSegment D req s.requestType s.maxPredictionCandidatesSize)
        (conversionSegments s) = some convOut ∧
      historySegments out
        = (if historyByteLen s ≤ kMaxHistoryBytes then historySegments s else []) ∧
      conversionSegments out = convOut := by
  unfold ConvertForRequest at h
  split at h
  · simp at h
  · rw [Option.map_eq_some'] at h
    obtain ⟨convOut, htrav, hout⟩ := h
    have hother : ∀ b ∈ convOut, b.isHistory = false := by
      intro b hb
      obtain ⟨a, ha, hfa⟩ := traverseSegs_mem _ _ _ htrav b hb
      have hat : b.segmentType = a.segmentType :=
        (rewriteSegment_key_type _ _ _ _ _ _ hfa).2
      have ha2 : a ∈ s.segments.filter (fun sg => !sg.isHistory) := ha
      have hna := List.of_mem_filter ha2
      rw [Segment.isHistory_congr a b hat]
      simpa using hna
    generalize hL : (if historyByteLen s ≤ kMaxHistoryBytes
        then historySegments s else []) = L at hout ⊢
    have hhist : ∀ x ∈ L, x.isHistory = true := by
      intro x hx
      rw [← hL] at hx
      split at hx
      · exact List.of_mem_filter hx
      · simp at hx
    refine ⟨convOut, htrav, ?_, ?_⟩
    · rw [← hout]
      simp only [historySegments]
      rw [List.filter_append]
      rw [List.filter_eq_self.2 hhist]
      rw [List.filter_eq_nil_iff.2 (by intro a ha; rw [hother a ha]; simp)]
      simp
    · rw [← hout]
      simp only [conversionSegments]
      rw [List.filter_append]
      rw [List.filter_eq_nil_iff.2
        (by intro a ha; rw [Bool.not_eq_true, hhist a ha]; simp)]
      rw [List.filter_eq_self.2 (by intro a ha; rw [hother a ha]; simp)]
      simp

/-! ### The claims -/

/-- C10: `EncodingUtil::UTF8ToSJIS` and `EncodingUtil::SJISToUTF8` return
void, reporting no status; their failure behaviour is asymmetric: if
opening the converter fails the output is set to a copy of the input,
while if the byte conversion fails part-way the output is left entirely
unchanged. -/
theorem c10_encoding_failure_asymmetry (lib : IconvLib) (input output : List Nat) :
    (lib.iconvOpen .UTF8 .SJIS = none → UTF8ToSJIS lib input output = input) ∧
    (∀ ic, lib.iconvOpen .UTF8 .SJIS = some ic → ic.convertBytes input = none →
      UTF8ToSJIS lib input output = output) ∧
    (lib.iconvOpen .SJIS .UTF8 = none → SJISToUTF8 lib input output = input) ∧
    (∀ ic, lib.iconvOpen .SJIS .UTF8 = some ic → ic.convertBytes input = none →
      SJISToUTF8 lib input output = output) := by
  refine ⟨?_, ?_, ?_, ?_⟩
  · intro h
    simp [UTF8ToSJIS, EncodingConvert, h]
  · intro ic h hc
    simp [UTF8ToSJIS, EncodingConvert, h, IconvHelper, hc]
  · intro h
    simp [SJISToUTF8, EncodingConvert, h]
  · intro ic h hc
    simp [SJISToUTF8, EncodingConvert, h, IconvHelper, hc]

theorem c10_encoding_failure_asymmetry_witness :
    UTF8ToSJIS iconvOpenFails [1] [2] = [1] ∧
    UTF8ToSJIS iconvConvertFails [1] [2] = [2] :=
  ⟨(c10_encoding_failure_asymmetry iconvOpenFails [1] [2]).1 rfl,
   (c10_encoding_failure_asymmetry iconvConvertFails [1] [2]).2.1
     ⟨fun _ => none⟩ rfl rfl⟩

/-- C2: on a segment holding exactly one candidate, `InsertDummyCandidates`
with `n ≥ 3` leaves at least 3 candidates, and every appended synthetic
candidate has strictly greater `wcost` than the top candidate and an empty
inner segment boundary (also when the top candidate itself carries a
non-empty one). -/
theorem c2_insert_dummy_candidates (seg : Segment) (c0 : Candidate) (n : Nat)
    (h : seg.candidates = [c0]) (hn : 3 ≤ n) :
    3 ≤ (InsertDummyCandidates seg n).candidates.length ∧
    ∀ c ∈ (InsertDummyCandidates seg n).candidates.drop 1,
      c0.wcost < c.wcost ∧ c.innerSegmentBoundary = [] := by
  have hres : (InsertDummyCandidates seg n).candidates
      = [c0] ++ dummyCandidates c0 c0.wcost ((dummySurfaces seg.key).take (n - 1)) := by
    simp [InsertDummyCandidates, h]
  constructor
  · rw [hres]
    simp only [List.length_append, List.length_singleton,
      dummyCandidates_length, List.length_take, dummySurfaces,
      List.length_cons, List.length_singleton]
    omega
  · rw [hres]
    intro c hc
    simp only [List.singleton_append, List.drop_succ_cons, List.drop_zero] at hc
    have hm := dummyCandidates_mem c0 c0.wcost _ c hc (Nat.le_refl _)
    exact ⟨hm.1, hm.2.1⟩

theorem c2_insert_dummy_candidates_witness :
    3 ≤ (InsertDummyCandidates s6Seg 10).candidates.length ∧
    (s6Cand.wcost < s6Dummy1.wcost ∧ s6Dummy1.innerSegmentBoundary = []) :=
  ⟨(c2_insert_dummy_candidates s6Seg s6Cand 10 rfl (by omega)).1,
   (c2_insert_dummy_candidates s6Seg s6Cand 10 rfl (by omega)).2
     s6Dummy1 (by decide)⟩

/-- C6: after Viterbi, every lattice node strictly straddling a fixed
segment boundary has a null back-pointer, and in the raw lattice of
scenario S4 at least one node at the position one character before the
boundary strictly straddles it. -/
theorem c6_fixed_boundary_null_backptr (D : ModelData) (nodes : List LNode)
    (bs : List Nat) (nd : LNode) (h : straddlesAny bs nd = true) :
    viterbiPrev D nodes bs nd = BackPtr.null ∧
    (∃ nd' ∈ makeLatticeNodes mockData s4Key,
      nd'.start = 4 ∧ 1 < nd'.span ∧
      straddlesAny (fixedBoundaries s4Segs 0) nd' = true) := by
  constructor
  · unfold viterbiPrev
    split
    · simp [h]
    · have hnil : ((nodes.filter
          (fun l => l.start + l.span == nd.start && decide (0 < l.span))).filterMap
            (fun l => (predecessorCost D nodes bs nd.start nd l).map (fun c => (c, l))))
          = [] := by
        rw [List.filterMap_eq_nil_iff]
        intro l _
        unfold predecessorCost
        rw [if_pos h]
        rfl
      rw [hnil]
      rfl
  · exact ⟨s4StraddleNode, by decide, rfl, by decide, by decide⟩

theorem c6_fixed_boundary_null_backptr_witness :
    viterbiPrev mockData (makeLatticeNodes mockData s4Key)
      (fixedBoundaries s4Segs 0) s4StraddleNode = BackPtr.null ∧
    (∃ nd' ∈ makeLatticeNodes mockData s4Key,
      nd'.start = 4 ∧ 1 < nd'.span ∧
      straddlesAny (fixedBoundaries s4Segs 0) nd' = true) :=
  c6_fixed_boundary_null_backptr mockData (makeLatticeNodes mockData s4Key)
    (fixedBoundaries s4Segs 0) s4StraddleNode (by decide)

/-- C7: predictive dictionary lookups are issued only with suffixes of the
final conversion segment's reading — never with a key beginning inside
the history region; concretely, with history "いいんじゃな" and
conversion "いか" the key "ないか" is never queried, while the
history-free prediction of "よろしくおねがいしま" queries "しま". -/
theorem c7_predictive_only_conversion_tail (s : Segments) (k : KString)
    (h : k ∈ predictiveLookupKeys s) :
    k <:+ lastConvKey s ∧
    kNaika ∉ predictiveLookupKeys s7In ∧
    kShima ∈ predictiveLookupKeys s1In := by
  refine ⟨?_, by decide, by decide⟩
  have h2 : k ∈ (lastConvKey s).tails.filter (fun t => !t.isEmpty) := h
  exact (List.mem_tails _ _).1 (List.mem_filter.1 h2).1

theorem c7_predictive_only_conversion_tail_witness :
    kShima <:+ lastConvKey s1In ∧
    kNaika ∉ predictiveLookupKeys s7In ∧
    kShima ∈ predictiveLookupKeys s1In :=
  c7_predictive_only_conversion_tail s1In kShima (by decide)

/-- C1: on a successful PREDICTION call with one conversion segment, the
conversion segment's key after the call equals the key the caller
originally set, whatever keys the produced candidates carry. -/
theorem c1_keep_key_for_prediction (D : ModelData) (req : ConversionRequest)
    (s out : Segments) (seg : Segment)
    (h : ConvertForRequest D req s = some out)
    (hp : s.requestType = RequestType.PREDICTION)
    (hs : conversionSegments s = [seg]) :
    (conversionSegments out).map Segment.key = [seg.key] := by
  obtain ⟨convOut, htrav, _, hconv⟩ := ConvertForRequest_decomp D req s out h
  rw [hs] at htrav
  obtain ⟨seg', hseg', rfl⟩ := traverseSegs_singleton _ _ _ htrav
  rw [hconv]
  simp [(rewriteSegment_key_type _ _ _ _ _ _ hseg').1]

theorem c1_keep_key_for_prediction_witness :
    (conversionSegments s1Out).map Segment.key = [(convSeg kYoroshiku).key] :=
  c1_keep_key_for_prediction mockData {} s1In s1Out (convSeg kYoroshiku) rfl rfl rfl

/-- C9: a successful call preserves the number of conversion segments;
history segments are untouched unless the history-too-long rule fires, in
which case all of them (and only they) are removed. -/
theorem c9_frame_effect (D : ModelData) (req : ConversionRequest) (s out : Segments)
    (h : ConvertForRequest D req s = some out) :
    (conversionSegments out).length = (conversionSegments s).length ∧
    (historyByteLen s ≤ kMaxHistoryBytes → historySegments out = historySegments s) ∧
    (kMaxHistoryBytes < historyByteLen s → historySegments out = []) := by
  obtain ⟨convOut, htrav, hhist, hconv⟩ := ConvertForRequest_decomp D req s out h
  refine ⟨?_, ?_, ?_⟩
  · rw [hconv, traverseSegs_length _ _ _ htrav]
  · intro hle
    rw [hhist, if_pos hle]
  · intro hlt
    rw [hhist, if_neg (by omega)]

theorem c9_frame_effect_witness :
    (conversionSegments s3Out).length = (conversionSegments s3In).length ∧
    historySegments s3Out = historySegments s3In :=
  ⟨(c9_frame_effect mockData {} s3In s3Out rfl).1,
   (c9_frame_effect mockData {} s3In s3Out rfl).2.1 (by decide)⟩

theorem sum_byteLen_flat (f : LNode → KString) :
    ∀ gs : List (List LNode),
      (gs.map (fun g => byteLen ((g.map f).flatten))).sum
        = byteLen ((gs.flatten.map f).flatten)
  | [] => by simp [byteLen]
  | g :: gs => by
    simp only [List.map_cons, List.sum_cons, List.flatten_cons, List.map_append,
      List.flatten_append]
    rw [byteLen_append, sum_byteLen_flat f gs]

theorem pathToPredCandidate_sums (D : ModelData) (path : List LNode) :
    ((pathToPredCandidate D path).innerSegmentBoundary.map InnerBoundary.keyLen).sum
      = byteLen (pathToPredCandidate D path).key ∧
    ((pathToPredCandidate D path).innerSegmentBoundary.map InnerBoundary.valueLen).sum
      = byteLen (pathToPredCandidate D path).value := by
  constructor
  · show (((groupPath path).map innerTuple).map InnerBoundary.keyLen).sum
      = byteLen (flatKeys path)
    rw [List.map_map]
    have he : (InnerBoundary.keyLen ∘ innerTuple)
        = fun g => byteLen ((g.map LNode.key).flatten) := rfl
    rw [he, sum_byteLen_flat LNode.key (groupPath path), groupPath_flatten]
    rfl
  · show (((groupPath path).map innerTuple).map InnerBoundary.valueLen).sum
      = byteLen (flatValues path)
    rw [List.map_map]
    have he : (InnerBoundary.valueLen ∘ innerTuple)
        = fun g => byteLen ((g.map LNode.value).flatten) := rfl
    rw [he, sum_byteLen_flat LNode.value (groupPath path), groupPath_flatten]
    rfl

/-- C4: on a successful CONVERSION-mode call, every candidate of every
returned conversion segment has an empty `inner_segment_boundary`. -/
theorem c4_conversion_empty_inner_boundary (D : ModelData) (req : ConversionRequest)
    (s out : Segments) (seg' : Segment) (c : Candidate)
    (h : ConvertForRequest D req s = some out)
    (hrt : s.requestType = RequestType.CONVERSION)
    (hm : seg' ∈ conversionSegments out) (hcand : c ∈ seg'.candidates) :
    c.innerSegmentBoundary = [] := by
  obtain ⟨convOut, htrav, _, hconv⟩ := ConvertForRequest_decomp D req s out h
  rw [hconv] at hm
  obtain ⟨a, _, hfa⟩ := traverseSegs_mem _ _ _ htrav seg' hm
  rw [hrt] at hfa
  obtain ⟨path, _, rfl⟩ := convertSegmentCONV_inv D a seg' hfa
  simp only [List.mem_singleton] at hcand
  subst hcand
  rfl

theorem c4_conversion_empty_inner_boundary_witness :
    s3OutCand.innerSegmentBoundary = [] :=
  c4_conversion_empty_inner_boundary mockData {} s3In s3Out s3OutSeg s3OutCand
    rfl rfl (by decide) (by decide)

/-- C5: on a successful PREDICTION call, the top candidate's inner segment
boundaries sum, in key byte length, to the candidate's key length and, in
value byte length, to its value length; on the reading
"わたしのなまえはなかのです" with `max_prediction_candidates_size = 1`
the single candidate carries exactly the three entries with key lengths
12/12/15 bytes and content key lengths 9/9/9 bytes. -/
theorem c5_prediction_inner_boundary_sums (D : ModelData) (req : ConversionRequest)
    (s out : Segments) (seg' : Segment) (c : Candidate)
    (h : ConvertForRequest D req s = some out)
    (hp : s.requestType = RequestType.PREDICTION)
    (hm : seg' ∈ conversionSegments out)
    (hc : seg'.candidates.head? = some c) :
    ((c.innerSegmentBoundary.map InnerBoundary.keyLen).sum = byteLen c.key ∧
     (c.innerSegmentBoundary.map InnerBoundary.valueLen).sum = byteLen c.value) ∧
    (s2OutSeg.candidates = [s2OutCand] ∧
     s2OutCand.innerSegmentBoundary
       = [⟨12, 6, 9, 3⟩, ⟨12, 9, 9, 6⟩, ⟨15, 12, 9, 6⟩]) := by
  refine ⟨?_, by decide, by decide⟩
  obtain ⟨convOut, htrav, _, hconv⟩ := ConvertForRequest_decomp D req s out h
  rw [hconv] at hm
  obtain ⟨a, _, hfa⟩ := traverseSegs_mem _ _ _ htrav seg' hm
  rw [hp] at hfa
  obtain ⟨path, _, rfl⟩ :=
    convertSegmentPRED_inv D req s.maxPredictionCandidatesSize a seg' hfa
  obtain ⟨ds, hds, hdsprop⟩ := InsertDummyCandidates_cands _ s.maxPredictionCandidatesSize
  rw [hds] at hc
  match hmx : s.maxPredictionCandidatesSize with
  | 0 =>
    rw [hmx] at hc
    simp only [List.take_zero, List.nil_append] at hc
    obtain ⟨top, htop, _⟩ := hdsprop c (List.mem_of_mem_head? hc)
    rw [hmx] at htop
    simp at htop
  | m + 1 =>
    rw [hmx] at hc
    simp only [List.take_succ_cons, List.cons_append, List.head?_cons,
      Option.some.injEq] at hc
    subst hc
    exact pathToPredCandidate_sums D path

theorem c5_prediction_inner_boundary_sums_witness :
    ((s2OutCand.innerSegmentBoundary.map InnerBoundary.keyLen).sum
        = byteLen s2OutCand.key ∧
     (s2OutCand.innerSegmentBoundary.map InnerBoundary.valueLen).sum
        = byteLen s2OutCand.value) ∧
    (s2OutSeg.candidates = [s2OutCand] ∧
     s2OutCand.innerSegmentBoundary
       = [⟨12, 6, 9, 3⟩, ⟨12, 9, 9, 6⟩, ⟨15, 12, 9, 6⟩]) :=
  c5_prediction_inner_boundary_sums mockData {} s2In s2Out s2OutSeg s2OutCand
    rfl rfl (by decide) (by decide)

/-- C3: when the concatenated history reading exceeds the history-length
bound and a single conversion segment with a non-empty key follows,
`Convert` succeeds, all history segments are dropped, the conversion
segment keeps its original key, and at least one candidate is produced
for it. -/
theorem c3_history_too_long (D : ModelData) (s : Segments) (seg : Segment)
    (hrt : s.requestType = RequestType.CONVERSION)
    (hcv : conversionSegments s = [seg]) (hkey : seg.key ≠ [])
    (hlong : kMaxHistoryBytes < historyByteLen s) :
    (Convert D s).isSome = true ∧
    historySegments ((Convert D s).getD noSegments) = [] ∧
    (conversionSegments ((Convert D s).getD noSegments)).map Segment.key = [seg.key] ∧
    (conversionSegments ((Convert D s).getD noSegments)).all
      (fun sg => !sg.candidates.isEmpty) = true := by
  have hu : ∀ q, q < seg.key.length →
      ∃ nd ∈ makeLatticeNodes D seg.key, nd.start = q ∧ nd.span = 1 :=
    fun q hq => makeLatticeNodes_unknown D seg.key q hq
  have hne := pathsFrom_ne_nil (makeLatticeNodes D seg.key) seg.key.length hu
    (seg.key.length + 1) 0 (Nat.zero_le _) (by omega)
  have hbp : (bestPath D (makeLatticeNodes D seg.key) seg.key.length).isSome = true :=
    argminBy_isSome _ _ hne
  obtain ⟨path, hpath⟩ := Option.isSome_iff_exists.1 hbp
  have hf : rewriteSegment D {} s.requestType s.maxPredictionCandidatesSize seg
      = some { seg with candidates := [pathToConvCandidate D path] } := by
    rw [hrt]
    show convertSegmentCONV D seg = _
    unfold convertSegmentCONV
    rw [hpath]
    rfl
  have htravMine : traverseSegs
      (rewriteSegment D {} s.requestType s.maxPredictionCandidatesSize) [seg]
      = some [{ seg with candidates := [pathToConvCandidate D path] }] := by
    simp [traverseSegs, hf]
  have hcond : ((conversionSegments s).isEmpty
      || (conversionSegments s).any (fun sg => sg.key.isEmpty)) = false := by
    rw [hcv]
    cases hk : seg.key with
    | nil => exact absurd hk hkey
    | cons x xs => simp [hk]
  have hout : Convert D s = some { s with segments :=
      [{ seg with candidates := [pathToConvCandidate D path] }] } := by
    show ConvertForRequest D {} s = _
    unfold ConvertForRequest
    rw [if_neg (by rw [hcond]; simp)]
    rw [hcv, htravMine]
    simp only [Option.map_some']
    rw [if_neg (by omega)]
    simp
  have hm : seg ∈ s.segments.filter (fun sg => !sg.isHistory) := by
    rw [show s.segments.filter (fun sg => !sg.isHistory) = conversionSegments s from rfl,
      hcv]
    exact List.mem_singleton_self seg
  have hx : seg.isHistory = false := by simpa using List.of_mem_filter hm
  have hx2 : ({ seg with candidates := [pathToConvCandidate D path] } : Segment).isHistory
      = false := by
    rw [Segment.isHistory_congr seg { seg with candidates := [pathToConvCandidate D path] } rfl]
    exact hx
  rw [hout]
  refine ⟨rfl, ?_, ?_, ?_⟩
  · simp [historySegments, hx2]
  · simp [conversionSegments, hx2]
  · simp [conversionSegments, hx2]

theorem c3_history_too_long_witness :
    (Convert mockData s5In).isSome = true ∧
    historySegments ((Convert mockData s5In).getD noSegments) = [] ∧
    (conversionSegments ((Convert mockData s5In).getD noSegments)).map Segment.key
      = [(convSeg kA1).key] ∧
    (conversionSegments ((Convert mockData s5In).getD noSegments)).all
      (fun sg => !sg.candidates.isEmpty) = true :=
  c3_history_too_long mockData s5In (convSeg kA1) rfl rfl (by decide) (by decide)

theorem bestPath_flatKeys (D : ModelData) (K : KString) (path : List LNode)
    (h : bestPath D (makeLatticeNodes D K) K.length = some path) :
    flatKeys path = K := by
  have hmem := argminBy_mem _ _ _ h
  have hflat := pathsFrom_flatKeys K (makeLatticeNodes D K) (makeLatticeNodes_shape D K)
    (K.length + 1) 0 path hmem
  simpa using hflat

theorem convertSegmentPRED_cases (D : ModelData) (req : ConversionRequest)
    (maxc : Nat) (a seg' : Segment)
    (h : convertSegmentPRED D req maxc a = some seg') :
    seg'.key = a.key ∧
    ∀ c ∈ seg'.candidates,
      (c.key = a.key ∧ c.partiallyKeyConsumed = false) ∨
      (isPre c.key a.key = true ∧ c.key.length < a.key.length ∧
        c.partiallyKeyConsumed = true ∧ req.createPartialCandidates = true) ∨
      (isPre a.key c.key = true ∧ a.key.length < c.key.length ∧
        c.partiallyKeyConsumed = false) := by
  obtain ⟨path, hbp, rfl⟩ := convertSegmentPRED_inv D req maxc a seg' h
  have hmain : (pathToPredCandidate D path).key = a.key := bestPath_flatKeys D a.key path hbp
  refine ⟨InsertDummyCandidates_key _ _, ?_⟩
  intro c hc
  obtain ⟨ds, hds, hdsprop⟩ := InsertDummyCandidates_cands _ maxc
  rw [hds] at hc
  rw [List.mem_append] at hc
  cases hc with
  | inl hbase =>
    have hc2 : c ∈ pathToPredCandidate D path ::
        ((if req.createPartialCandidates then partialCandidates D a.key else [])
          ++ predictiveCandidates D a.key) := List.take_subset _ _ hbase
    rw [List.mem_cons] at hc2
    cases hc2 with
    | inl he =>
      subst he
      exact Or.inl ⟨hmain, rfl⟩
    | inr hpq =>
      rw [List.mem_append] at hpq
      cases hpq with
      | inl hP =>
        by_cases hflag : req.createPartialCandidates = true
        · rw [if_pos hflag] at hP
          unfold partialCandidates at hP
          rw [List.mem_map] at hP
          obtain ⟨t, ht, rfl⟩ := hP
          rw [List.mem_filter] at ht
          obtain ⟨ht1, ht2⟩ := ht
          have hpre := List.of_mem_filter
            (show t ∈ D.dict.filter (fun t => isPre t.key a.key) from ht1)
          exact Or.inr (Or.inl ⟨hpre, by simpa using ht2, rfl, hflag⟩)
        · rw [if_neg hflag] at hP
          simp at hP
      | inr hQ =>
        unfold predictiveCandidates at hQ
        rw [List.mem_map] at hQ
        obtain ⟨t, ht, rfl⟩ := hQ
        rw [List.mem_filter] at ht
        obtain ⟨ht1, ht2⟩ := ht
        have hpre := List.of_mem_filter
          (show t ∈ D.dict.filter (fun t => isPre a.key t.key) from ht1)
        exact Or.inr (Or.inr ⟨hpre, by simpa using ht2, rfl⟩)
  | inr hds2 =>
    obtain ⟨top, htop, _, _, hkeq, hfl⟩ := hdsprop c hds2
    cases maxc with
    | zero => simp at htop
    | succ m =>
      simp only [List.take_succ_cons, List.head?_cons, Option.some.injEq] at htop
      rw [← htop] at hkeq hfl
      exact Or.inl ⟨by rw [hkeq]; exact hmain, hfl⟩

/-- C8: on a PREDICTION call with `create_partial_candidates` enabled a
candidate's key is shorter (in bytes) than the segment key exactly when it
carries `PARTIALLY_KEY_CONSUMED`, and the concrete auto-partial run on
"わたしのなまえはなかのです" does produce a strict-prefix candidate;
with the flag disabled (the default) no candidate whose key is a strict
prefix of the segment key appears. -/
theorem c8_auto_partial_suggestion (D : ModelData) (req : ConversionRequest)
    (s out : Segments) (h : ConvertForRequest D req s = some out)
    (hp : s.requestType = RequestType.PREDICTION) :
    (req.createPartialCandidates = true →
      ∀ seg' ∈ conversionSegments out, ∀ c ∈ seg'.candidates,
        (byteLen c.key < byteLen seg'.key ↔ c.partiallyKeyConsumed = true)) ∧
    (req.createPartialCandidates = false →
      ∀ seg' ∈ conversionSegments out, ∀ c ∈ seg'.candidates,
        ¬(c.key ≠ seg'.key ∧ isPre c.key seg'.key = true)) ∧
    includesPrefixCandidate
      (ConvertForRequest mockData { createPartialCandidates := true } s2In10) = true := by
  obtain ⟨convOut, htrav, _, hconv⟩ := ConvertForRequest_decomp D req s out h
  have hKey : ∀ seg' ∈ conversionSegments out, ∃ a : Segment, seg'.key = a.key ∧
      ∀ c ∈ seg'.candidates,
        (c.key = a.key ∧ c.partiallyKeyConsumed = false) ∨
        (isPre c.key a.key = true ∧ c.key.length < a.key.length ∧
          c.partiallyKeyConsumed = true ∧ req.createPartialCandidates = true) ∨
        (isPre a.key c.key = true ∧ a.key.length < c.key.length ∧
          c.partiallyKeyConsumed = false) := by
    intro seg' hm
    rw [hconv] at hm
    obtain ⟨a, _, hfa⟩ := traverseSegs_mem _ _ _ htrav seg' hm
    rw [hp] at hfa
    have hcs := convertSegmentPRED_cases D req s.maxPredictionCandidatesSize a seg' hfa
    exact ⟨a, hcs.1, hcs.2⟩
  refine ⟨?_, ?_, by decide⟩
  · intro _ seg' hm c hc
    obtain ⟨a, hk, hcs⟩ := hKey seg' hm
    rcases hcs c hc with ⟨h1, h2⟩ | ⟨h1, h2, h3, _⟩ | ⟨h1, h2, h3⟩
    · rw [hk, h1, h2]
      simp
    · rw [hk, h3]
      simp only [iff_true]
      exact isPre_byteLen_lt _ _ h1 h2
    · rw [hk, h3]
      have hle := isPre_byteLen_le _ _ h1
      simp only [Bool.false_eq_true, iff_false]
      omega
  · intro hflag seg' hm c hc
    obtain ⟨a, hk, hcs⟩ := hKey seg' hm
    rintro ⟨hne, hpre⟩
    rcases hcs c hc with ⟨h1, _⟩ | ⟨_, _, _, h4⟩ | ⟨h1, h2, _⟩
    · exact hne (by rw [h1, hk])
    · rw [hflag] at h4
      exact absurd h4 (by simp)
    · have hlen := isPre_length_le _ _ hpre
      rw [hk] at hlen
      omega

theorem c8_auto_partial_suggestion_witness :
    byteLen s2Out10TCand.key < byteLen s2Out10TSeg.key ↔
      s2Out10TCand.partiallyKeyConsumed = true :=
  (c8_auto_partial_suggestion mockData { createPartialCandidates := true }
      s2In10 s2Out10T rfl rfl).1 rfl s2Out10TSeg (by decide) s2Out10TCand (by decide)

end Mozc
